import Mathlib

/-!
Verification of the Meek-method single transferable vote counter
(`src/python/stv_election.py`) against its specification.

Python floats are modelled as exact rationals (`ℚ`); candidate names are
strings, as in the source.  The mutable candidate dictionary is modelled as a
list of `Candidate` records in insertion order (Python dict order); in-place
mutation becomes functional update of that list.  The two unbounded `while` /
`for` loops of the source are modelled with explicit fuel: `MAX_ITERATIONS`
is the source's own iteration cap for the convergence loop, and the main
round loop receives fuel `candidates.length + 1`, which is shown to suffice
(claim C10).
-/

namespace STV

/-- `SingleTransferableVote.CONVERGENCE_THRESHOLD = 1e-9`. -/
def CONVERGENCE_THRESHOLD : ℚ := 1 / 1000000000

/-- `SingleTransferableVote.MAX_ITERATIONS = 1000`. -/
def MAX_ITERATIONS : ℕ := 1000

/-- State of one candidate (`class Candidate`). -/
structure Candidate where
  name : String
  votes : ℚ
  is_winner : Bool
  is_loser : Bool
  keep_rate : ℚ
deriving DecidableEq

/-- `Candidate(name)`: fresh candidate with `votes = 0.0`, both status flags
clear and `keep_rate = 1.0`. -/
def initCandidate (name : String) : Candidate :=
  { name := name, votes := 0, is_winner := false, is_loser := false, keep_rate := 1 }

/-- A candidate is active when `not c.is_winner and not c.is_loser`. -/
def Candidate.isActive (c : Candidate) : Bool :=
  !c.is_winner && !c.is_loser

/-- The election state (`class SingleTransferableVote`), after loading:
candidate ledger, validated ballots (each a list of candidate names),
`num_winners` and `droop_quota` (initially `0`). -/
structure Election where
  candidates : List Candidate
  votes : List (List String)
  num_winners : ℕ
  droop_quota : ℕ
deriving DecidableEq

/-- Constructor `SingleTransferableVote(candidate_names, num_winners)` with an
already-loaded ballot list. -/
def mkElection (candidate_names : List String) (num_winners : ℕ)
    (ballots : List (List String)) : Election :=
  { candidates := candidate_names.map initCandidate
    votes := ballots
    num_winners := num_winners
    droop_quota := 0 }

/-- Dictionary lookup `self.candidates[name]`, as an option. -/
def findCand (cs : List Candidate) (nm : String) : Option Candidate :=
  cs.find? fun c => c.name = nm

/-- `candidate.votes += t` for the candidate named `nm`. -/
def updateVotes (cs : List Candidate) (nm : String) (t : ℚ) : List Candidate :=
  cs.map fun c => if c.name = nm then { c with votes := c.votes + t } else c

/-- The inner ballot walk of `_recalculate_votes`: consume one ballot's
preference list, transferring `vote_value * keep_rate` to each active
candidate in turn and stopping once the remaining value falls below the
threshold.  The `none` branch is unreachable for validated ballots (Python
would raise `KeyError`). -/
def processBallot : List Candidate → List String → ℚ → List Candidate
  | cs, [], _ => cs
  | cs, p :: rest, vote_value =>
    if vote_value < CONVERGENCE_THRESHOLD then cs
    else
      match findCand cs p with
      | none => cs
      | some candidate =>
        let current_keep_rate : ℚ := if candidate.isActive then candidate.keep_rate else 0
        let transfer_value := vote_value * current_keep_rate
        processBallot (updateVotes cs p transfer_value) rest (vote_value - transfer_value)

/-- First loop of `_recalculate_votes`: `c.votes = 0` for every candidate. -/
def resetVotes (cs : List Candidate) : List Candidate :=
  cs.map fun c => { c with votes := 0 }

/-- `_recalculate_votes`: zero all vote totals, then walk every ballot with
initial value `1.0`. -/
def recalculateVotes (cs : List Candidate) (ballots : List (List String)) : List Candidate :=
  ballots.foldl (fun acc b => processBallot acc b 1) (resetVotes cs)

/-- The residual value of one ballot after the walk (its exhausted
remainder).  It depends only on statuses and keep rates, which
`_recalculate_votes` never changes. -/
def ballotRemainder (cs : List Candidate) : List String → ℚ → ℚ
  | [], vote_value => vote_value
  | p :: rest, vote_value =>
    if vote_value < CONVERGENCE_THRESHOLD then vote_value
    else
      match findCand cs p with
      | none => vote_value
      | some candidate =>
        let current_keep_rate : ℚ := if candidate.isActive then candidate.keep_rate else 0
        ballotRemainder cs rest (vote_value - vote_value * current_keep_rate)

/-- Keep-rate shrink of `_run_meek_iteration` for one candidate: an active
candidate over quota has `keep_rate *= quota / votes`, anyone else is left
unchanged. -/
def shrinkCandidate (quota : ℕ) (c : Candidate) : Candidate :=
  if c.isActive = true ∧ (quota : ℚ) < c.votes then
    { c with keep_rate := c.keep_rate * ((quota : ℚ) / c.votes) }
  else c

/-- Keep-rate shrink step of `_run_meek_iteration` over the whole ledger. -/
def shrinkKeepRates (quota : ℕ) (cs : List Candidate) : List Candidate :=
  cs.map (shrinkCandidate quota)

/-- `previous_keep_rates.get(name, 0)`: snapshot lookup with default `0`. -/
def prevRate (prev : List Candidate) (nm : String) : ℚ :=
  match findCand prev nm with
  | some c => c.keep_rate
  | none => 0

/-- `rate_changed`: total absolute keep-rate change versus the snapshot. -/
def rateChange (prev cur : List Candidate) : ℚ :=
  (cur.map fun c => |c.keep_rate - prevRate prev c.name|).sum

/-- One iteration of the convergence loop body: recompute votes, then shrink
over-quota keep rates. -/
def meekStep (quota : ℕ) (ballots : List (List String)) (cs : List Candidate) : List Candidate :=
  shrinkKeepRates quota (recalculateVotes cs ballots)

/-- The bounded `for i in range(MAX_ITERATIONS)` loop of
`_run_meek_iteration`: iterate `meekStep` until the total keep-rate change
falls below the threshold or the fuel (iteration cap) runs out. -/
def meekLoop (quota : ℕ) (ballots : List (List String)) : List Candidate → ℕ → List Candidate
  | cs, 0 => cs
  | cs, fuel + 1 =>
    let cs1 := meekStep quota ballots cs
    if rateChange cs cs1 < CONVERGENCE_THRESHOLD then cs1
    else meekLoop quota ballots cs1 fuel

/-- First loop of `_run_meek_iteration`: `keep_rate = 1.0` for every active
candidate. -/
def resetKeepRates (cs : List Candidate) : List Candidate :=
  cs.map fun c => if c.isActive then { c with keep_rate := 1 } else c

/-- `_run_meek_iteration`: reset active keep rates, run the convergence loop
up to the iteration cap, then one final `_recalculate_votes`. -/
def runMeekIteration (quota : ℕ) (ballots : List (List String)) (cs : List Candidate) :
    List Candidate :=
  recalculateVotes (meekLoop quota ballots (resetKeepRates cs) MAX_ITERATIONS) ballots

/-- Python `min` over the active candidates' vote totals. -/
def minVotes : List Candidate → ℚ
  | [] => 0
  | c :: rest => rest.foldl (fun m d => min m d.votes) c.votes

/-- Elimination test of `_eliminate_loser` for one candidate, given the
minimum `min_votes` among active candidates: an active candidate whose vote
total is within the threshold of that minimum becomes a loser. -/
def eliminateCandidate (min_votes : ℚ) (c : Candidate) : Candidate :=
  if c.isActive = true ∧ |c.votes - min_votes| < CONVERGENCE_THRESHOLD then
    { c with is_loser := true }
  else c

/-- `_eliminate_loser`: every active candidate within the threshold of the
active minimum becomes a loser; with no active candidates the ledger is
returned unchanged. -/
def eliminateLoser (cs : List Candidate) : List Candidate :=
  if (cs.filter fun c => c.isActive).isEmpty then cs
  else cs.map (eliminateCandidate (minVotes (cs.filter fun c => c.isActive)))

/-- Terminal-round decision of `_run_main_loop` for one candidate: an active
candidate becomes a winner exactly when its votes strictly exceed the quota,
and a loser otherwise.  The source visits active candidates in descending
vote order, which only affects printing, not the resulting state. -/
def decideCandidate (quota : ℕ) (c : Candidate) : Candidate :=
  if c.isActive then
    if (quota : ℚ) < c.votes then { c with is_winner := true }
    else { c with is_loser := true }
  else c

/-- The terminal-round `for` loop of `_run_main_loop`. -/
def finalDecision (quota : ℕ) (cs : List Candidate) : List Candidate :=
  cs.map (decideCandidate quota)

/-- `_run_single_round`: one convergence run followed by elimination. -/
def runSingleRound (quota : ℕ) (ballots : List (List String)) (cs : List Candidate) :
    List Candidate :=
  eliminateLoser (runMeekIteration quota ballots cs)

/-- `_elect_winners`: the progressive-election routine present in the source
but never called from `run_election`'s control flow. -/
def electWinners (quota : ℕ) (cs : List Candidate) : List Candidate :=
  cs.map fun c =>
    if c.isActive = true ∧ (quota : ℚ) < c.votes then { c with is_winner := true } else c

/-- `_run_main_loop`, with fuel for the unbounded `while True`:
while more candidates are active than seats, run a single round; once the
active count is at most `num_winners`, run the final convergence and the
terminal decision. -/
def runMainLoop (quota num_winners : ℕ) (ballots : List (List String)) :
    List Candidate → ℕ → List Candidate
  | cs, 0 => cs
  | cs, fuel + 1 =>
    if (cs.filter fun c => c.isActive).length ≤ num_winners then
      finalDecision quota (runMeekIteration quota ballots cs)
    else
      runMainLoop quota num_winners ballots (runSingleRound quota ballots cs) fuel

/-- `_calculate_droop_quota`: `floor(len(votes) / (num_winners + 1)) + 1`
(natural division is exactly this floor). -/
def calculateDroopQuota (ballotCount num_winners : ℕ) : ℕ :=
  ballotCount / (num_winners + 1) + 1

/-- `run_election` after loading: abort unchanged when no valid ballots were
read, otherwise compute the Droop quota once and run the main loop.  The fuel
`candidates.length + 1` is sufficient because every non-terminal round
eliminates at least one active candidate (claim C10). -/
def run_election (e : Election) : Election :=
  if e.votes.isEmpty then e
  else
    { e with
      droop_quota := calculateDroopQuota e.votes.length e.num_winners
      candidates :=
        runMainLoop (calculateDroopQuota e.votes.length e.num_winners) e.num_winners e.votes
          e.candidates (e.candidates.length + 1) }

/-!
## Concrete evaluation of the specification's worked scenario

Candidates `{A, B, C}`, one seat, ballots `["AB", "AB", "B", "C"]`.
The intermediate ledgers are evaluated step by step.
-/

/-- Ballots of the worked scenario. -/
def scB : List (List String) := [["A","B"], ["A","B"], ["B"], ["C"]]

/-- Initial ledger of the worked scenario. -/
def sc0 : List Candidate := [initCandidate "A", initCandidate "B", initCandidate "C"]

/-- The worked scenario as a loaded election. -/
def scenarioElection : Election :=
  mkElection ["A", "B", "C"] 1 [["A","B"], ["A","B"], ["B"], ["C"]]

/-- Ledger after the first redistribution pass: `A = 2`, `B = 1`, `C = 1`. -/
def scR1 : List Candidate :=
  [⟨"A",2,false,false,1⟩, ⟨"B",1,false,false,1⟩, ⟨"C",1,false,false,1⟩]

/-- Ledger after round 1: `B` and `C` eliminated together. -/
def scE1 : List Candidate :=
  [⟨"A",2,false,false,1⟩, ⟨"B",1,false,true,1⟩, ⟨"C",1,false,true,1⟩]

/-- Ledger after the terminal-round convergence run: `A` holds `2` votes. -/
def scM2 : List Candidate :=
  [⟨"A",2,false,false,1⟩, ⟨"B",0,false,true,1⟩, ⟨"C",0,false,true,1⟩]

/-- Final ledger: every candidate ends a loser, `A` with `2` votes. -/
def scF : List Candidate :=
  [⟨"A",2,false,true,1⟩, ⟨"B",0,false,true,1⟩, ⟨"C",0,false,true,1⟩]

/-- Name, keep rate and status flags of every candidate, in order. -/
def flowView (cs : List Candidate) : List (String × ℚ × Bool × Bool) :=
  cs.map fun c => (c.name, c.keep_rate, c.is_winner, c.is_loser)

/-- Total vote count held by the ledger. -/
def voteSum (cs : List Candidate) : ℚ := (cs.map fun c => c.votes).sum

/-- Effective keep rate the ballot walk applies for the candidate named
`nm`: its keep rate when active, `0` when elected or eliminated, `none` for
an unknown name. -/
def effRate (cs : List Candidate) (nm : String) : Option ℚ :=
  (findCand cs nm).map fun c => if c.isActive then c.keep_rate else 0

/-- The two status flags of every candidate, in order. -/
def statusView (cs : List Candidate) : List (Bool × Bool) :=
  cs.map fun c => (c.is_winner, c.is_loser)

/-- One-step status discipline: a non-active candidate's flags are
untouched, and the two flags are never both set. -/
def StatusStep (c d : Candidate) : Prop :=
  (c.isActive = false → d.is_winner = c.is_winner ∧ d.is_loser = c.is_loser)
  ∧ (¬(c.is_winner = true ∧ c.is_loser = true) → ¬(d.is_winner = true ∧ d.is_loser = true))

/-- Per-round trace of `_run_main_loop`: the ledger after each completed
round, the terminal round's result last. -/
def runMainLoopTrace (quota num_winners : ℕ) (ballots : List (List String)) :
    List Candidate → ℕ → List (List Candidate)
  | _, 0 => []
  | cs, fuel + 1 =>
    if (cs.filter fun c => c.isActive).length ≤ num_winners then
      [finalDecision quota (runMeekIteration quota ballots cs)]
    else
      runSingleRound quota ballots cs ::
        runMainLoopTrace quota num_winners ballots (runSingleRound quota ballots cs) fuel

/-- Candidate lookup by name on a finished election, with a default for
unknown names. -/
def getCand (e : Election) (nm : String) : Candidate :=
  (findCand e.candidates nm).getD (initCandidate nm)

/-- Winner flags of every candidate, in order. -/
def winnerFlags (cs : List Candidate) : List Bool := cs.map fun c => c.is_winner

lemma recalc_sc0 : recalculateVotes sc0 scB = scR1 := by
  norm_num [recalculateVotes, resetVotes, processBallot, updateVotes, findCand, List.find?,
    sc0, scB, scR1, initCandidate, Candidate.isActive, CONVERGENCE_THRESHOLD]
  norm_num +decide

lemma shrink_scR1 : shrinkKeepRates 3 scR1 = scR1 := by
  norm_num [shrinkKeepRates, shrinkCandidate, scR1, Candidate.isActive]

lemma step_sc0 : meekStep 3 scB sc0 = scR1 := by
  rw [meekStep, recalc_sc0, shrink_scR1]

lemma rate_sc0 : rateChange sc0 scR1 = 0 := by
  norm_num [rateChange, prevRate, findCand, List.find?, sc0, scR1, initCandidate]
  norm_num +decide

lemma meekLoop_sc0 : meekLoop 3 scB sc0 MAX_ITERATIONS = scR1 := by
  rw [MAX_ITERATIONS, show (1000 : ℕ) = 999 + 1 from rfl, meekLoop, step_sc0, rate_sc0]
  norm_num [CONVERGENCE_THRESHOLD]

lemma reset_sc0 : resetKeepRates sc0 = sc0 := by
  norm_num [resetKeepRates, sc0, initCandidate, Candidate.isActive]

lemma recalc_scR1 : recalculateVotes scR1 scB = scR1 := by
  norm_num [recalculateVotes, resetVotes, processBallot, updateVotes, findCand, List.find?,
    scB, scR1, Candidate.isActive, CONVERGENCE_THRESHOLD]
  norm_num +decide

lemma meek_sc0 : runMeekIteration 3 scB sc0 = scR1 := by
  rw [runMeekIteration, reset_sc0, meekLoop_sc0, recalc_scR1]

lemma elim_scR1 : eliminateLoser scR1 = scE1 := by
  norm_num [eliminateLoser, eliminateCandidate, minVotes, scR1, scE1, Candidate.isActive,
    CONVERGENCE_THRESHOLD, List.filter]

lemma round1_sc0 : runSingleRound 3 scB sc0 = scE1 := by
  rw [runSingleRound, meek_sc0, elim_scR1]

lemma reset_scE1 : resetKeepRates scE1 = scE1 := by
  norm_num [resetKeepRates, scE1, Candidate.isActive]

lemma recalc_scE1 : recalculateVotes scE1 scB = scM2 := by
  norm_num [recalculateVotes, resetVotes, processBallot, updateVotes, findCand, List.find?,
    scB, scE1, scM2, Candidate.isActive, CONVERGENCE_THRESHOLD]
  norm_num +decide

lemma shrink_scM2 : shrinkKeepRates 3 scM2 = scM2 := by
  norm_num [shrinkKeepRates, shrinkCandidate, scM2, Candidate.isActive]

lemma rate_scE1 : rateChange scE1 scM2 = 0 := by
  norm_num [rateChange, prevRate, findCand, List.find?, scE1, scM2]
  norm_num +decide

lemma recalc_scM2 : recalculateVotes scM2 scB = scM2 := by
  norm_num [recalculateVotes, resetVotes, processBallot, updateVotes, findCand, List.find?,
    scB, scM2, Candidate.isActive, CONVERGENCE_THRESHOLD]
  norm_num +decide

lemma meek_scE1 : runMeekIteration 3 scB scE1 = scM2 := by
  rw [runMeekIteration, reset_scE1, MAX_ITERATIONS, show (1000 : ℕ) = 999 + 1 from rfl,
    meekLoop]
  rw [show meekStep 3 scB scE1 = scM2 from by rw [meekStep, recalc_scE1, shrink_scM2]]
  rw [rate_scE1]
  norm_num [CONVERGENCE_THRESHOLD, recalc_scM2]

lemma final_scM2 : finalDecision 3 scM2 = scF := by
  norm_num [finalDecision, decideCandidate, scM2, scF, Candidate.isActive]

lemma main_unf : runMainLoop 3 1 scB sc0 4 =
    if (sc0.filter fun c => c.isActive).length ≤ 1 then
      finalDecision 3 (runMeekIteration 3 scB sc0)
    else runMainLoop 3 1 scB (runSingleRound 3 scB sc0) 3 := by
  rw [show (4 : ℕ) = 3 + 1 from rfl, runMainLoop]

lemma cond_sc0 : ((sc0.filter fun c => c.isActive).length ≤ 1) = False := by
  simp only [sc0, initCandidate, Candidate.isActive, List.filter, Bool.not_false, Bool.and_self,
    List.length_cons, List.length_nil]
  norm_num

lemma main_step1 : runMainLoop 3 1 scB sc0 4 = runMainLoop 3 1 scB scE1 3 := by
  rw [main_unf]
  simp only [cond_sc0, if_false]
  rw [round1_sc0]

lemma main_unf2 : runMainLoop 3 1 scB scE1 3 =
    if (scE1.filter fun c => c.isActive).length ≤ 1 then
      finalDecision 3 (runMeekIteration 3 scB scE1)
    else runMainLoop 3 1 scB (runSingleRound 3 scB scE1) 2 := by
  rw [show (3 : ℕ) = 2 + 1 from rfl, runMainLoop]

lemma cond_scE1 : ((scE1.filter fun c => c.isActive).length ≤ 1) = True := by
  simp only [scE1, Candidate.isActive, List.filter, Bool.not_false, Bool.not_true, Bool.and_self,
    Bool.false_and, Bool.and_false, List.length_cons, List.length_nil]
  norm_num

lemma main_sc0 : runMainLoop 3 1 scB sc0 4 = scF := by
  rw [main_step1, main_unf2]
  simp only [cond_scE1, if_true]
  rw [meek_scE1, final_scM2]

/-!
## Structural lemmas

`flowView` projects the fields that the redistribution pass reads but never
writes: name, keep rate and the two status flags.  The lemmas of this
section say which operations leave this view (or parts of it) unchanged,
and that every operation preserves the ledger's length.
-/

lemma flowView_length {cs cs' : List Candidate} (h : flowView cs = flowView cs') :
    cs.length = cs'.length := by
  simpa [flowView] using congrArg List.length h

lemma flowView_updateVotes (cs : List Candidate) (nm : String) (t : ℚ) :
    flowView (updateVotes cs nm t) = flowView cs := by
  simp only [flowView, updateVotes, List.map_map]
  apply List.map_congr_left
  intro c _
  by_cases h : c.name = nm <;> simp [h]

lemma flowView_processBallot (prefs : List String) (v : ℚ) (cs : List Candidate) :
    flowView (processBallot cs prefs v) = flowView cs := by
  induction prefs generalizing cs v with
  | nil => rfl
  | cons p rest ih =>
    rw [processBallot]
    by_cases hv : v < CONVERGENCE_THRESHOLD
    · rw [if_pos hv]
    · rw [if_neg hv]
      cases hfc : findCand cs p with
      | none => simp only [hfc]
      | some cand => simp only [hfc]; rw [ih, flowView_updateVotes]

lemma flowView_resetVotes (cs : List Candidate) :
    flowView (resetVotes cs) = flowView cs := by
  simp [flowView, resetVotes, List.map_map]

lemma flowView_recalculateVotes (cs : List Candidate) (ballots : List (List String)) :
    flowView (recalculateVotes cs ballots) = flowView cs := by
  rw [recalculateVotes]
  have hfold : ∀ (bs : List (List String)) (acc : List Candidate),
      flowView (bs.foldl (fun a b => processBallot a b 1) acc) = flowView acc := by
    intro bs
    induction bs with
    | nil => intro acc; rfl
    | cons b bs ih => intro acc; rw [List.foldl_cons, ih, flowView_processBallot]
  rw [hfold, flowView_resetVotes]

lemma flowView_get {cs cs' : List Candidate} (h : flowView cs = flowView cs')
    (i : ℕ) (h1 : i < cs.length) (h2 : i < cs'.length) :
    cs[i].name = cs'[i].name ∧ cs[i].keep_rate = cs'[i].keep_rate
    ∧ cs[i].is_winner = cs'[i].is_winner ∧ cs[i].is_loser = cs'[i].is_loser := by
  have h9 : (flowView cs)[i]? = (flowView cs')[i]? := by rw [h]
  simp only [flowView, List.getElem?_map, List.getElem?_eq_getElem h1,
    List.getElem?_eq_getElem h2, Option.map_some'] at h9
  injection h9 with h9
  exact ⟨congrArg Prod.fst h9, congrArg (fun x => x.2.1) h9,
    congrArg (fun x => x.2.2.1) h9, congrArg (fun x => x.2.2.2) h9⟩

lemma length_updateVotes (cs : List Candidate) (nm : String) (t : ℚ) :
    (updateVotes cs nm t).length = cs.length := by
  simp [updateVotes]

lemma length_processBallot (prefs : List String) (v : ℚ) (cs : List Candidate) :
    (processBallot cs prefs v).length = cs.length :=
  flowView_length (flowView_processBallot prefs v cs)

lemma length_recalculateVotes (cs : List Candidate) (ballots : List (List String)) :
    (recalculateVotes cs ballots).length = cs.length :=
  flowView_length (flowView_recalculateVotes cs ballots)

lemma length_shrinkKeepRates (quota : ℕ) (cs : List Candidate) :
    (shrinkKeepRates quota cs).length = cs.length := by
  simp [shrinkKeepRates]

lemma length_meekStep (quota : ℕ) (ballots : List (List String)) (cs : List Candidate) :
    (meekStep quota ballots cs).length = cs.length := by
  rw [meekStep, length_shrinkKeepRates, length_recalculateVotes]

lemma length_meekLoop (quota : ℕ) (ballots : List (List String)) (cs : List Candidate)
    (fuel : ℕ) : (meekLoop quota ballots cs fuel).length = cs.length := by
  induction fuel generalizing cs with
  | zero => rfl
  | succ n ih =>
    rw [meekLoop]
    by_cases hc : rateChange cs (meekStep quota ballots cs) < CONVERGENCE_THRESHOLD
    · simp only [if_pos hc, length_meekStep]
    · simp only [if_neg hc, ih, length_meekStep]

lemma length_resetKeepRates (cs : List Candidate) :
    (resetKeepRates cs).length = cs.length := by
  simp [resetKeepRates]

lemma length_runMeekIteration (quota : ℕ) (ballots : List (List String))
    (cs : List Candidate) : (runMeekIteration quota ballots cs).length = cs.length := by
  rw [runMeekIteration, length_recalculateVotes, length_meekLoop, length_resetKeepRates]

lemma length_eliminateLoser (cs : List Candidate) :
    (eliminateLoser cs).length = cs.length := by
  rw [eliminateLoser]
  by_cases h : (cs.filter fun c => c.isActive).isEmpty <;> simp [h]

lemma length_finalDecision (quota : ℕ) (cs : List Candidate) :
    (finalDecision quota cs).length = cs.length := by
  simp [finalDecision]

lemma length_runSingleRound (quota : ℕ) (ballots : List (List String))
    (cs : List Candidate) : (runSingleRound quota ballots cs).length = cs.length := by
  rw [runSingleRound, length_eliminateLoser, length_runMeekIteration]

lemma length_runMainLoop (quota num_winners : ℕ) (ballots : List (List String))
    (cs : List Candidate) (fuel : ℕ) :
    (runMainLoop quota num_winners ballots cs fuel).length = cs.length := by
  induction fuel generalizing cs with
  | zero => rfl
  | succ n ih =>
    rw [runMainLoop]
    by_cases h : (cs.filter fun c => c.isActive).length ≤ num_winners
    · simp only [if_pos h, length_finalDecision, length_runMeekIteration]
    · simp only [if_neg h, ih, length_runSingleRound]

/-!
## Conservation of ballot value

Every transfer moves value from a ballot's remainder onto exactly one
candidate (names are distinct, as keys of the Python dictionary are), so one
redistribution pass splits each ballot's unit value between the vote totals
and that ballot's exhausted remainder.
-/

lemma voteSum_nil : voteSum [] = 0 := rfl

lemma voteSum_cons (c : Candidate) (cs : List Candidate) :
    voteSum (c :: cs) = c.votes + voteSum cs := by
  simp [voteSum]

lemma names_eq_of_flowView {cs cs' : List Candidate} (h : flowView cs = flowView cs') :
    (cs.map fun c => c.name) = (cs'.map fun c => c.name) := by
  simpa [flowView, List.map_map] using congrArg (List.map Prod.fst) h

lemma updateCand_name (c : Candidate) (nm : String) (t : ℚ) :
    (if c.name = nm then { c with votes := c.votes + t } else c).name = c.name := by
  by_cases h : c.name = nm <;> simp [h]

lemma findCand_map (cs : List Candidate) (f : Candidate → Candidate)
    (hf : ∀ c, (f c).name = c.name) (p : String) :
    findCand (cs.map f) p = (findCand cs p).map f := by
  induction cs with
  | nil => rfl
  | cons c cs ih =>
    by_cases hp : c.name = p
    · rw [List.map_cons, findCand, List.find?_cons_of_pos _ (by simpa [hf] using hp),
        findCand, List.find?_cons_of_pos _ (by simpa using hp)]
      rfl
    · rw [List.map_cons, findCand, List.find?_cons_of_neg _ (by simpa [hf] using hp),
        findCand, List.find?_cons_of_neg _ (by simpa using hp), ← findCand, ← findCand, ih]

lemma findCand_updateVotes (cs : List Candidate) (nm p : String) (t : ℚ) :
    findCand (updateVotes cs nm t) p
      = (findCand cs p).map fun c =>
          if c.name = nm then { c with votes := c.votes + t } else c := by
  rw [updateVotes]
  exact findCand_map cs _ (fun c => updateCand_name c nm t) p

lemma findCand_resetVotes (cs : List Candidate) (p : String) :
    findCand (resetVotes cs) p = (findCand cs p).map fun c => { c with votes := 0 } := by
  rw [resetVotes]
  exact findCand_map cs (fun c => { c with votes := 0 }) (fun c => rfl) p

lemma effRate_updateVotes (cs : List Candidate) (nm p : String) (t : ℚ) :
    effRate (updateVotes cs nm t) p = effRate cs p := by
  rw [effRate, effRate, findCand_updateVotes]
  cases hfc : findCand cs p with
  | none => rfl
  | some c =>
    simp only [Option.map_some']
    congr 1
    by_cases h : c.name = nm
    · rw [if_pos h]; rfl
    · rw [if_neg h]

lemma effRate_resetVotes (cs : List Candidate) (p : String) :
    effRate (resetVotes cs) p = effRate cs p := by
  rw [effRate, effRate, findCand_resetVotes]
  cases hfc : findCand cs p with
  | none => rfl
  | some c => rfl

lemma effRate_processBallot (prefs : List String) (v : ℚ) (cs : List Candidate) (p : String) :
    effRate (processBallot cs prefs v) p = effRate cs p := by
  induction prefs generalizing cs v with
  | nil => rfl
  | cons q rest ih =>
    rw [processBallot]
    by_cases hv : v < CONVERGENCE_THRESHOLD
    · rw [if_pos hv]
    · rw [if_neg hv]
      cases hfc : findCand cs q with
      | none => simp only [hfc]
      | some cand => simp only [hfc]; rw [ih, effRate_updateVotes]

lemma ballotRemainder_cons (cs : List Candidate) (p : String) (rest : List String) (v : ℚ) :
    ballotRemainder cs (p :: rest) v
      = if v < CONVERGENCE_THRESHOLD then v
        else
          match effRate cs p with
          | none => v
          | some r => ballotRemainder cs rest (v - v * r) := by
  rw [ballotRemainder]
  by_cases hv : v < CONVERGENCE_THRESHOLD
  · rw [if_pos hv, if_pos hv]
  · rw [if_neg hv, if_neg hv, effRate]
    cases hfc : findCand cs p with
    | none => simp only [hfc]; rfl
    | some c => simp only [hfc]; rfl

lemma ballotRemainder_congr {cs cs' : List Candidate}
    (h : ∀ p, effRate cs p = effRate cs' p) (prefs : List String) (v : ℚ) :
    ballotRemainder cs prefs v = ballotRemainder cs' prefs v := by
  induction prefs generalizing v with
  | nil => rfl
  | cons p rest ih =>
    rw [ballotRemainder_cons, ballotRemainder_cons, h p]
    by_cases hv : v < CONVERGENCE_THRESHOLD
    · rw [if_pos hv, if_pos hv]
    · rw [if_neg hv, if_neg hv]
      cases effRate cs' p with
      | none => rfl
      | some r => exact ih _

lemma voteSum_updateVotes (cs : List Candidate) (nm : String) (t : ℚ)
    (hnodup : (cs.map fun c => c.name).Nodup) (hmem : (findCand cs nm).isSome = true) :
    voteSum (updateVotes cs nm t) = voteSum cs + t := by
  induction cs with
  | nil => simp [findCand] at hmem
  | cons c cs ih =>
    simp only [List.map_cons, List.nodup_cons] at hnodup
    by_cases h : c.name = nm
    · have htail : updateVotes cs nm t = cs := by
        rw [updateVotes]
        have hone : ∀ d ∈ cs, (if d.name = nm then { d with votes := d.votes + t } else d) = d := by
          intro d hd
          have hne : d.name ≠ nm := by
            intro hdn
            apply hnodup.1
            have hmm : d.name ∈ cs.map fun x => x.name := List.mem_map_of_mem _ hd
            rwa [hdn, ← h] at hmm
          simp [hne]
        calc cs.map (fun d => if d.name = nm then { d with votes := d.votes + t } else d)
            = cs.map id := List.map_congr_left hone
          _ = cs := List.map_id cs
      rw [updateVotes, List.map_cons, if_pos h]
      show voteSum ({ c with votes := c.votes + t } :: updateVotes cs nm t) = _
      rw [htail, voteSum_cons, voteSum_cons]
      show c.votes + t + voteSum cs = c.votes + voteSum cs + t
      ring
    · have hmem' : (findCand cs nm).isSome = true := by
        rw [findCand, List.find?_cons_of_neg _ (by simpa using h)] at hmem
        exact hmem
      rw [updateVotes, List.map_cons, if_neg h]
      show voteSum (c :: updateVotes cs nm t) = _
      rw [voteSum_cons, voteSum_cons, ih hnodup.2 hmem']
      ring

lemma voteSum_processBallot (prefs : List String) (v : ℚ) (cs : List Candidate)
    (hnodup : (cs.map fun c => c.name).Nodup) :
    voteSum (processBallot cs prefs v) = voteSum cs + (v - ballotRemainder cs prefs v) := by
  induction prefs generalizing cs v with
  | nil => rw [processBallot, ballotRemainder]; ring
  | cons p rest ih =>
    rw [processBallot, ballotRemainder]
    by_cases hv : v < CONVERGENCE_THRESHOLD
    · rw [if_pos hv, if_pos hv]; ring
    · rw [if_neg hv, if_neg hv]
      cases hfc : findCand cs p with
      | none => simp only [hfc]; ring
      | some cand =>
        simp only [hfc]
        have hn2 : ((updateVotes cs p
            (v * if cand.isActive then cand.keep_rate else 0)).map fun c => c.name).Nodup := by
          rwa [names_eq_of_flowView (flowView_updateVotes cs p _)]
        rw [ih _ _ hn2]
        rw [voteSum_updateVotes cs p _ hnodup (by rw [hfc]; rfl)]
        rw [ballotRemainder_congr (fun q => effRate_updateVotes cs p q _) rest]
        ring

lemma voteSum_resetVotes (cs : List Candidate) : voteSum (resetVotes cs) = 0 := by
  induction cs with
  | nil => rfl
  | cons c cs ih =>
    rw [resetVotes, List.map_cons]
    show voteSum ({ c with votes := 0 } :: resetVotes cs) = 0
    rw [voteSum_cons, ih]
    show (0 : ℚ) + 0 = 0
    ring

lemma sum_one_sub (f : List String → ℚ) (bs : List (List String)) :
    (bs.map fun b => 1 - f b).sum = bs.length - (bs.map f).sum := by
  induction bs with
  | nil => simp
  | cons b bs ih =>
    simp only [List.map_cons, List.sum_cons, ih, List.length_cons]
    push_cast
    ring

lemma voteSum_foldl (ballots : List (List String)) (acc : List Candidate)
    (hnodup : (acc.map fun c => c.name).Nodup) :
    voteSum (ballots.foldl (fun a b => processBallot a b 1) acc)
      = voteSum acc + (ballots.map fun b => 1 - ballotRemainder acc b 1).sum := by
  induction ballots generalizing acc with
  | nil => simp
  | cons b bs ih =>
    rw [List.foldl_cons]
    have hn2 : ((processBallot acc b 1).map fun c => c.name).Nodup := by
      rwa [names_eq_of_flowView (flowView_processBallot b 1 acc)]
    rw [ih _ hn2, voteSum_processBallot b 1 acc hnodup]
    have hrem : (bs.map fun b' => 1 - ballotRemainder (processBallot acc b 1) b' 1)
        = bs.map fun b' => 1 - ballotRemainder acc b' 1 :=
      List.map_congr_left fun b' _ => by
        rw [ballotRemainder_congr (fun q => effRate_processBallot b 1 acc q) b']
    rw [List.map_cons, List.sum_cons, hrem]
    ring

/-!
## Status flags

The two status flags only ever move away from Active: the convergence
machinery never touches them, elimination only sets `is_loser` on active
candidates, and the terminal decision only sets one flag on active
candidates.
-/

lemma statusView_of_flowView {cs cs' : List Candidate} (h : flowView cs = flowView cs') :
    statusView cs = statusView cs' := by
  simpa [flowView, statusView, List.map_map] using congrArg (List.map fun x => x.2.2) h

lemma statusView_shrinkKeepRates (quota : ℕ) (cs : List Candidate) :
    statusView (shrinkKeepRates quota cs) = statusView cs := by
  simp only [statusView, shrinkKeepRates, List.map_map]
  apply List.map_congr_left
  intro c _
  simp only [Function.comp_apply]
  rw [shrinkCandidate]
  by_cases h : c.isActive = true ∧ (quota : ℚ) < c.votes
  · rw [if_pos h]
  · rw [if_neg h]

lemma statusView_resetKeepRates (cs : List Candidate) :
    statusView (resetKeepRates cs) = statusView cs := by
  simp only [statusView, resetKeepRates, List.map_map]
  apply List.map_congr_left
  intro c _
  simp only [Function.comp_apply]
  by_cases h : c.isActive
  · rw [if_pos h]
  · rw [if_neg h]

lemma statusView_meekStep (quota : ℕ) (ballots : List (List String)) (cs : List Candidate) :
    statusView (meekStep quota ballots cs) = statusView cs := by
  rw [meekStep, statusView_shrinkKeepRates,
    statusView_of_flowView (flowView_recalculateVotes cs ballots)]

lemma statusView_meekLoop (quota : ℕ) (ballots : List (List String)) (cs : List Candidate)
    (fuel : ℕ) : statusView (meekLoop quota ballots cs fuel) = statusView cs := by
  induction fuel generalizing cs with
  | zero => rfl
  | succ n ih =>
    rw [meekLoop]
    by_cases hc : rateChange cs (meekStep quota ballots cs) < CONVERGENCE_THRESHOLD
    · simp only [if_pos hc, statusView_meekStep]
    · simp only [if_neg hc]
      rw [ih, statusView_meekStep]

lemma statusView_runMeekIteration (quota : ℕ) (ballots : List (List String))
    (cs : List Candidate) : statusView (runMeekIteration quota ballots cs) = statusView cs := by
  rw [runMeekIteration, statusView_of_flowView (flowView_recalculateVotes _ ballots),
    statusView_meekLoop, statusView_resetKeepRates]

lemma statusView_get {cs cs' : List Candidate} (h : statusView cs = statusView cs')
    (i : ℕ) (h1 : i < cs.length) (h2 : i < cs'.length) :
    cs[i].is_winner = cs'[i].is_winner ∧ cs[i].is_loser = cs'[i].is_loser := by
  have h9 : (statusView cs)[i]? = (statusView cs')[i]? := by rw [h]
  simp only [statusView, List.getElem?_map, List.getElem?_eq_getElem h1,
    List.getElem?_eq_getElem h2, Option.map_some'] at h9
  injection h9 with h9
  exact ⟨congrArg Prod.fst h9, congrArg Prod.snd h9⟩

lemma statusStep_refl (c : Candidate) : StatusStep c c :=
  ⟨fun _ => ⟨rfl, rfl⟩, fun h => h⟩

lemma statusStep_trans {c d e : Candidate} (h1 : StatusStep c d) (h2 : StatusStep d e) :
    StatusStep c e := by
  refine ⟨fun hna => ?_, fun hx => h2.2 (h1.2 hx)⟩
  obtain ⟨hw, hl⟩ := h1.1 hna
  have hdna : d.isActive = false := by
    rw [Candidate.isActive] at hna ⊢
    rw [hw, hl]
    exact hna
  obtain ⟨hw2, hl2⟩ := h2.1 hdna
  exact ⟨hw2.trans hw, hl2.trans hl⟩

lemma statusStep_of_flags {c d : Candidate} (hw : d.is_winner = c.is_winner)
    (hl : d.is_loser = c.is_loser) : StatusStep c d := by
  refine ⟨fun _ => ⟨hw, hl⟩, fun hx hy => hx ?_⟩
  rw [← hw, ← hl]
  exact hy

lemma forall₂_statusStep_of_statusView {cs cs' : List Candidate}
    (h : statusView cs = statusView cs') : List.Forall₂ StatusStep cs cs' := by
  induction cs generalizing cs' with
  | nil =>
    cases cs' with
    | nil => exact List.Forall₂.nil
    | cons d ds => exact absurd h (by simp [statusView])
  | cons c cs ih =>
    cases cs' with
    | nil => exact absurd h (by simp [statusView])
    | cons d ds =>
      rw [statusView, List.map_cons, statusView, List.map_cons] at h
      injection h with hhead htail
      refine List.Forall₂.cons ?_ (ih htail)
      injection hhead with hw hl
      exact statusStep_of_flags hw.symm hl.symm

lemma forall₂_statusStep_trans {as bs cs : List Candidate}
    (h1 : List.Forall₂ StatusStep as bs) (h2 : List.Forall₂ StatusStep bs cs) :
    List.Forall₂ StatusStep as cs := by
  induction h1 generalizing cs with
  | nil =>
    cases h2
    exact List.Forall₂.nil
  | cons hab h1' ih =>
    cases h2 with
    | cons hbc h2' => exact List.Forall₂.cons (statusStep_trans hab hbc) (ih h2')

lemma statusStep_eliminateCandidate (m : ℚ) (c : Candidate) :
    StatusStep c (eliminateCandidate m c) := by
  rw [eliminateCandidate]
  by_cases h : c.isActive = true ∧ |c.votes - m| < CONVERGENCE_THRESHOLD
  · rw [if_pos h]
    refine ⟨fun hna => absurd h.1 (by rw [hna]; simp), fun _ hy => ?_⟩
    have : c.is_winner = true := hy.1
    have hact := h.1
    rw [Candidate.isActive, this] at hact
    simp at hact
  · rw [if_neg h]
    exact statusStep_refl c

lemma statusStep_decideCandidate (quota : ℕ) (c : Candidate) :
    StatusStep c (decideCandidate quota c) := by
  rw [decideCandidate]
  by_cases h : c.isActive = true
  · rw [if_pos h]
    have hw : c.is_winner = false := by
      rw [Candidate.isActive] at h
      exact (Bool.and_eq_true _ _ ▸ h).1 |> fun hx => by simpa using hx
    have hl : c.is_loser = false := by
      rw [Candidate.isActive] at h
      exact (Bool.and_eq_true _ _ ▸ h).2 |> fun hx => by simpa using hx
    by_cases hq : (quota : ℚ) < c.votes
    · rw [if_pos hq]
      exact ⟨fun hna => absurd h (by rw [hna]; simp), fun _ hy => by simp [hl] at hy⟩
    · rw [if_neg hq]
      exact ⟨fun hna => absurd h (by rw [hna]; simp), fun _ hy => by simp [hw] at hy⟩
  · rw [if_neg h]
    exact statusStep_refl c

lemma forall₂_statusStep_eliminateLoser (cs : List Candidate) :
    List.Forall₂ StatusStep cs (eliminateLoser cs) := by
  rw [eliminateLoser]
  by_cases h : (cs.filter fun c => c.isActive).isEmpty
  · rw [if_pos h]
    exact List.forall₂_same.mpr fun c _ => statusStep_refl c
  · rw [if_neg h]
    exact List.forall₂_map_right_iff.mpr
      (List.forall₂_same.mpr fun c _ => statusStep_eliminateCandidate _ c)

lemma forall₂_statusStep_finalDecision (quota : ℕ) (cs : List Candidate) :
    List.Forall₂ StatusStep cs (finalDecision quota cs) := by
  rw [finalDecision]
  exact List.forall₂_map_right_iff.mpr
    (List.forall₂_same.mpr fun c _ => statusStep_decideCandidate quota c)

lemma forall₂_statusStep_runMainLoop (quota num_winners : ℕ) (ballots : List (List String))
    (fuel : ℕ) : ∀ cs : List Candidate,
    List.Forall₂ StatusStep cs (runMainLoop quota num_winners ballots cs fuel) := by
  induction fuel with
  | zero => exact fun cs => List.forall₂_same.mpr fun c _ => statusStep_refl c
  | succ n ih =>
    intro cs
    rw [runMainLoop]
    by_cases h : (cs.filter fun c => c.isActive).length ≤ num_winners
    · rw [if_pos h]
      exact forall₂_statusStep_trans
        (forall₂_statusStep_of_statusView
          (statusView_runMeekIteration quota ballots cs).symm)
        (forall₂_statusStep_finalDecision quota _)
    · rw [if_neg h]
      refine forall₂_statusStep_trans ?_ (ih _)
      rw [runSingleRound]
      exact forall₂_statusStep_trans
        (forall₂_statusStep_of_statusView
          (statusView_runMeekIteration quota ballots cs).symm)
        (forall₂_statusStep_eliminateLoser _)

/-!
## Progress of the round loop

Every non-terminal round eliminates at least one active candidate: the
candidate attaining the active minimum always passes the tie test, so the
active count strictly decreases and the fuel `candidates.length + 1` given
to `runMainLoop` is enough to reach the terminal round.
-/

lemma foldl_min_attained (rest : List Candidate) :
    ∀ a : ℚ, rest.foldl (fun m d => min m d.votes) a = a
      ∨ ∃ d ∈ rest, rest.foldl (fun m d => min m d.votes) a = d.votes := by
  induction rest with
  | nil => intro a; exact Or.inl rfl
  | cons d ds ih =>
    intro a
    rw [List.foldl_cons]
    rcases ih (min a d.votes) with h | ⟨e, he, h⟩
    · rw [h]
      rcases min_choice a d.votes with hm | hm
    <;> [exact Or.inl hm; exact Or.inr ⟨d, List.mem_cons_self d ds, hm⟩]
    · exact Or.inr ⟨e, List.mem_cons_of_mem d he, h⟩

lemma minVotes_attained (cs : List Candidate) (h : cs ≠ []) :
    ∃ d ∈ cs, d.votes = minVotes cs := by
  cases cs with
  | nil => exact absurd rfl h
  | cons c rest =>
    rw [minVotes]
    rcases foldl_min_attained rest c.votes with hf | ⟨d, hd, hf⟩
    · exact ⟨c, List.mem_cons_self c rest, hf.symm⟩
    · exact ⟨d, List.mem_cons_of_mem c hd, hf.symm⟩

lemma countP_map_le (f : Candidate → Candidate) (cs : List Candidate)
    (h : ∀ c ∈ cs, (f c).isActive = true → c.isActive = true) :
    (cs.map f).countP (fun c => c.isActive) ≤ cs.countP (fun c => c.isActive) := by
  induction cs with
  | nil => exact Nat.le_refl 0
  | cons c cs ih =>
    rw [List.map_cons, List.countP_cons, List.countP_cons]
    have htail := ih fun d hd => h d (List.mem_cons_of_mem c hd)
    by_cases ha : (f c).isActive = true
    · rw [if_pos ha, if_pos (h c (List.mem_cons_self c cs) ha)]
      omega
    · rw [if_neg ha]
      by_cases hca : c.isActive = true
      · rw [if_pos hca]; omega
      · rw [if_neg hca]; omega

lemma countP_map_lt (f : Candidate → Candidate) (cs : List Candidate)
    (h : ∀ c ∈ cs, (f c).isActive = true → c.isActive = true)
    (hw : ∃ c ∈ cs, c.isActive = true ∧ (f c).isActive = false) :
    (cs.map f).countP (fun c => c.isActive) < cs.countP (fun c => c.isActive) := by
  induction cs with
  | nil => exact absurd hw (by simp)
  | cons c cs ih =>
    rw [List.map_cons, List.countP_cons, List.countP_cons]
    rcases hw with ⟨d, hd, hda, hdf⟩
    rcases List.mem_cons.mp hd with rfl | hd'
    · rw [if_neg (by rw [hdf]; exact Bool.false_ne_true), if_pos hda]
      have htail := countP_map_le f cs fun e he => h e (List.mem_cons_of_mem d he)
      omega
    · have htail := ih (fun e he => h e (List.mem_cons_of_mem c he)) ⟨d, hd', hda, hdf⟩
      by_cases hfa : (f c).isActive = true
      · rw [if_pos hfa, if_pos (h c (List.mem_cons_self c cs) hfa)]
        omega
      · rw [if_neg hfa]
        by_cases hca : c.isActive = true
        · rw [if_pos hca]; omega
        · rw [if_neg hca]; omega

lemma activeLen_of_statusView {cs cs' : List Candidate}
    (h : statusView cs = statusView cs') :
    (cs.filter fun c => c.isActive).length = (cs'.filter fun c => c.isActive).length := by
  rw [← List.countP_eq_length_filter, ← List.countP_eq_length_filter]
  have h1 : cs.countP (fun c => c.isActive)
      = (statusView cs).countP (fun pr => !pr.1 && !pr.2) := by
    rw [statusView, List.countP_map]
    rfl
  have h2 : cs'.countP (fun c => c.isActive)
      = (statusView cs').countP (fun pr => !pr.1 && !pr.2) := by
    rw [statusView, List.countP_map]
    rfl
  rw [h1, h2, h]

lemma activeLen_eliminateLoser_lt (cs : List Candidate)
    (hne : (cs.filter fun c => c.isActive) ≠ []) :
    ((eliminateLoser cs).filter fun c => c.isActive).length
      < (cs.filter fun c => c.isActive).length := by
  rw [eliminateLoser, if_neg (by simpa [List.isEmpty_iff] using hne)]
  rw [← List.countP_eq_length_filter, ← List.countP_eq_length_filter]
  apply countP_map_lt
  · intro c _ hfa
    by_contra hca
    rw [eliminateCandidate] at hfa
    by_cases hcond : c.isActive = true ∧ |c.votes - minVotes (cs.filter fun c => c.isActive)|
        < CONVERGENCE_THRESHOLD
    · exact hca hcond.1
    · rw [if_neg hcond] at hfa
      exact hca hfa
  · obtain ⟨d, hd, hdm⟩ := minVotes_attained _ hne
    have hda : d.isActive = true := (List.mem_filter.mp hd).2
    refine ⟨d, (List.mem_filter.mp hd).1, hda, ?_⟩
    rw [eliminateCandidate,
      if_pos ⟨hda, by rw [hdm, sub_self, abs_zero]; rw [CONVERGENCE_THRESHOLD]; norm_num⟩]
    rw [Candidate.isActive]
    simp

lemma activeLen_runSingleRound_lt (quota num_winners : ℕ) (ballots : List (List String))
    (cs : List Candidate) (h : num_winners < (cs.filter fun c => c.isActive).length) :
    ((runSingleRound quota ballots cs).filter fun c => c.isActive).length
      < (cs.filter fun c => c.isActive).length := by
  rw [runSingleRound]
  have hmeek := activeLen_of_statusView (statusView_runMeekIteration quota ballots cs)
  have hne : ((runMeekIteration quota ballots cs).filter fun c => c.isActive) ≠ [] := by
    intro hempty
    rw [← hmeek] at h
    rw [hempty] at h
    simp at h
  calc ((eliminateLoser (runMeekIteration quota ballots cs)).filter
        fun c => c.isActive).length
      < ((runMeekIteration quota ballots cs).filter fun c => c.isActive).length :=
        activeLen_eliminateLoser_lt _ hne
    _ = (cs.filter fun c => c.isActive).length := hmeek

lemma runMainLoop_fuel_stable (quota num_winners : ℕ) (ballots : List (List String)) :
    ∀ (k : ℕ) (cs : List Candidate) (n : ℕ),
      (cs.filter fun c => c.isActive).length ≤ k → k + 1 ≤ n →
      runMainLoop quota num_winners ballots cs n
        = runMainLoop quota num_winners ballots cs (k + 1) := by
  intro k
  induction k with
  | zero =>
    intro cs n hk hn
    obtain ⟨m, rfl⟩ := Nat.exists_eq_add_of_le hn
    rw [Nat.add_comm 1 m]
    rw [runMainLoop, runMainLoop]
    have hterm : (cs.filter fun c => c.isActive).length ≤ num_winners := by omega
    rw [if_pos hterm, if_pos hterm]
  | succ k ih =>
    intro cs n hk hn
    obtain ⟨m, rfl⟩ := Nat.exists_eq_add_of_le hn
    rw [show k + 1 + 1 + m = (m + (k + 1)) + 1 from by omega]
    rw [runMainLoop]
    conv_rhs => rw [runMainLoop]
    by_cases hterm : (cs.filter fun c => c.isActive).length ≤ num_winners
    · rw [if_pos hterm, if_pos hterm]
    · rw [if_neg hterm, if_neg hterm]
      have hlt := activeLen_runSingleRound_lt quota num_winners ballots cs (by omega)
      have hle : ((runSingleRound quota ballots cs).filter fun c => c.isActive).length ≤ k := by
        omega
      rw [ih _ (m + (k + 1)) hle (by omega)]

/-!
## Round trace and element-wise characterisations
-/

lemma runMainLoopTrace_ne_nil (quota num_winners : ℕ) (ballots : List (List String))
    (cs : List Candidate) (fuel : ℕ) :
    runMainLoopTrace quota num_winners ballots cs (fuel + 1) ≠ [] := by
  rw [runMainLoopTrace]
  by_cases h : (cs.filter fun c => c.isActive).length ≤ num_winners
  · rw [if_pos h]; exact List.cons_ne_nil _ _
  · rw [if_neg h]; exact List.cons_ne_nil _ _

lemma runMainLoopTrace_getLast (quota num_winners : ℕ) (ballots : List (List String)) :
    ∀ (fuel : ℕ) (cs : List Candidate),
      (runMainLoopTrace quota num_winners ballots cs (fuel + 1)).getLast?
        = some (runMainLoop quota num_winners ballots cs (fuel + 1)) := by
  intro fuel
  induction fuel with
  | zero =>
    intro cs
    rw [runMainLoopTrace, runMainLoop]
    by_cases h : (cs.filter fun c => c.isActive).length ≤ num_winners
    · rw [if_pos h, if_pos h]; rfl
    · rw [if_neg h, if_neg h]; rfl
  | succ n ih =>
    intro cs
    rw [runMainLoopTrace, runMainLoop]
    by_cases h : (cs.filter fun c => c.isActive).length ≤ num_winners
    · rw [if_pos h, if_pos h]; rfl
    · rw [if_neg h, if_neg h]
      obtain ⟨x, xs, hx⟩ : ∃ x xs, runMainLoopTrace quota num_winners ballots
          (runSingleRound quota ballots cs) (n + 1) = x :: xs := by
        cases htr : runMainLoopTrace quota num_winners ballots
            (runSingleRound quota ballots cs) (n + 1) with
        | nil => exact absurd htr (runMainLoopTrace_ne_nil quota num_winners ballots _ n)
        | cons x xs => exact ⟨x, xs, rfl⟩
      rw [hx, List.getLast?_cons_cons, ← hx, ih]

lemma winnerFlags_of_statusView {cs cs' : List Candidate}
    (h : statusView cs = statusView cs') : winnerFlags cs = winnerFlags cs' := by
  simpa [statusView, winnerFlags, List.map_map] using congrArg (List.map Prod.fst) h

lemma winnerFlags_eliminateLoser (cs : List Candidate) :
    winnerFlags (eliminateLoser cs) = winnerFlags cs := by
  rw [eliminateLoser]
  by_cases h : (cs.filter fun c => c.isActive).isEmpty
  · rw [if_pos h]
  · rw [if_neg h, winnerFlags, winnerFlags, List.map_map]
    apply List.map_congr_left
    intro c _
    simp only [Function.comp_apply]
    rw [eliminateCandidate]
    by_cases hc : c.isActive = true
        ∧ |c.votes - minVotes (cs.filter fun c => c.isActive)| < CONVERGENCE_THRESHOLD
    · rw [if_pos hc]
    · rw [if_neg hc]

lemma winnerFlags_runSingleRound (quota : ℕ) (ballots : List (List String))
    (cs : List Candidate) : winnerFlags (runSingleRound quota ballots cs) = winnerFlags cs := by
  rw [runSingleRound, winnerFlags_eliminateLoser,
    winnerFlags_of_statusView (statusView_runMeekIteration quota ballots cs)]

lemma noWinners_of_flags {cs cs' : List Candidate} (h : winnerFlags cs = winnerFlags cs')
    (h0 : ∀ c ∈ cs', c.is_winner = false) : ∀ c ∈ cs, c.is_winner = false := by
  intro c hc
  have hmem : c.is_winner ∈ winnerFlags cs := List.mem_map_of_mem _ hc
  rw [h] at hmem
  obtain ⟨d, hd, he⟩ := List.mem_map.mp hmem
  rw [← he]
  exact h0 d hd

lemma trace_noWinners (quota num_winners : ℕ) (ballots : List (List String)) :
    ∀ (fuel : ℕ) (cs : List Candidate), (∀ c ∈ cs, c.is_winner = false) →
      ∀ s ∈ (runMainLoopTrace quota num_winners ballots cs fuel).dropLast,
        ∀ c ∈ s, c.is_winner = false := by
  intro fuel
  induction fuel with
  | zero =>
    intro cs _ s hs
    rw [runMainLoopTrace] at hs
    simp at hs
  | succ n ih =>
    intro cs h0 s hs
    rw [runMainLoopTrace] at hs
    by_cases h : (cs.filter fun c => c.isActive).length ≤ num_winners
    · rw [if_pos h] at hs
      simp at hs
    · rw [if_neg h] at hs
      have h0' : ∀ c ∈ runSingleRound quota ballots cs, c.is_winner = false :=
        noWinners_of_flags (winnerFlags_runSingleRound quota ballots cs) h0
      cases htr : runMainLoopTrace quota num_winners ballots
          (runSingleRound quota ballots cs) n with
      | nil =>
        rw [htr] at hs
        simp at hs
      | cons x xs =>
        rw [htr, List.dropLast_cons₂] at hs
        rcases List.mem_cons.mp hs with rfl | hs'
        · exact h0'
        · exact ih _ h0' s (by rw [htr]; exact hs')

lemma eliminateLoser_getElem (cs : List Candidate)
    (hne : (cs.filter fun c => c.isActive) ≠ []) (i : ℕ) (h1 : i < cs.length)
    (h2 : i < (eliminateLoser cs).length) :
    (eliminateLoser cs)[i]
      = eliminateCandidate (minVotes (cs.filter fun c => c.isActive)) cs[i] := by
  have hel : eliminateLoser cs
      = cs.map (eliminateCandidate (minVotes (cs.filter fun c => c.isActive))) := by
    rw [eliminateLoser, if_neg (by simpa [List.isEmpty_iff] using hne)]
  rw [List.getElem_of_eq hel, List.getElem_map]

lemma finalDecision_getElem (quota : ℕ) (cs : List Candidate) (i : ℕ)
    (h1 : i < cs.length) (h2 : i < (finalDecision quota cs).length) :
    (finalDecision quota cs)[i] = decideCandidate quota cs[i] := by
  rw [List.getElem_of_eq (by rw [finalDecision] : finalDecision quota cs
    = cs.map (decideCandidate quota)), List.getElem_map]

lemma run_sc : run_election scenarioElection =
    { candidates := scF, votes := scB, num_winners := 1, droop_quota := 3 } := by
  rw [run_election, if_neg (by decide : ¬ (scenarioElection.votes.isEmpty = true))]
  rw [show calculateDroopQuota scenarioElection.votes.length scenarioElection.num_winners = 3
    from by decide]
  rw [show scenarioElection.num_winners = 1 from rfl]
  rw [show scenarioElection.votes = scB from rfl]
  rw [show scenarioElection.candidates = sc0 from rfl]
  rw [show sc0.length + 1 = 4 from rfl, main_sc0]

lemma effRate_recalculateVotes (cs : List Candidate) (ballots : List (List String))
    (p : String) : effRate (recalculateVotes cs ballots) p = effRate cs p := by
  rw [recalculateVotes]
  have hfold : ∀ (bs : List (List String)) (acc : List Candidate),
      effRate (bs.foldl (fun a b => processBallot a b 1) acc) p = effRate acc p := by
    intro bs
    induction bs with
    | nil => intro acc; rfl
    | cons b bs ih => intro acc; rw [List.foldl_cons, ih, effRate_processBallot]
  rw [hfold, effRate_resetVotes]

lemma getCand_run_sc_A :
    getCand (run_election scenarioElection) "A" = ⟨"A", 2, false, true, 1⟩ := by
  rw [getCand, run_sc]
  rfl

lemma getCand_run_sc_B :
    getCand (run_election scenarioElection) "B" = ⟨"B", 0, false, true, 1⟩ := by
  rw [getCand, run_sc]
  rfl

lemma getCand_run_sc_C :
    getCand (run_election scenarioElection) "C" = ⟨"C", 0, false, true, 1⟩ := by
  rw [getCand, run_sc]
  rfl

lemma active_flags {c : Candidate} (hc : c.isActive = true) :
    c.is_winner = false ∧ c.is_loser = false := by
  rw [Candidate.isActive, Bool.and_eq_true, Bool.not_eq_true', Bool.not_eq_true'] at hc
  exact hc

lemma shrinkCandidate_keep_rate (quota : ℕ) (c : Candidate) :
    (shrinkCandidate quota c).keep_rate
      = if c.isActive = true ∧ (quota : ℚ) < c.votes
        then c.keep_rate * ((quota : ℚ) / c.votes) else c.keep_rate := by
  rw [shrinkCandidate]
  by_cases h : c.isActive = true ∧ (quota : ℚ) < c.votes
  · rw [if_pos h, if_pos h]
  · rw [if_neg h, if_neg h]

lemma shrinkCandidate_le (quota : ℕ) (c : Candidate) (hnn : 0 ≤ c.keep_rate) :
    (shrinkCandidate quota c).keep_rate ≤ c.keep_rate := by
  rw [shrinkCandidate_keep_rate]
  by_cases h : c.isActive = true ∧ (quota : ℚ) < c.votes
  · rw [if_pos h]
    have hv : (0 : ℚ) < c.votes := lt_of_le_of_lt (by positivity) h.2
    have hr : (quota : ℚ) / c.votes ≤ 1 := by
      rw [div_le_one hv]
      exact le_of_lt h.2
    calc c.keep_rate * ((quota : ℚ) / c.votes) ≤ c.keep_rate * 1 :=
          mul_le_mul_of_nonneg_left hr hnn
      _ = c.keep_rate := mul_one _
  · rw [if_neg h]

lemma forall₂_trans_of {R S T : Candidate → Candidate → Prop}
    (hc : ∀ ⦃a b c⦄, R a b → S b c → T a c) :
    ∀ {as bs cs : List Candidate},
      List.Forall₂ R as bs → List.Forall₂ S bs cs → List.Forall₂ T as cs := by
  intro as bs cs h1
  induction h1 generalizing cs with
  | nil =>
    intro h2
    cases h2
    exact List.Forall₂.nil
  | cons hab h1' ih =>
    intro h2
    cases h2 with
    | cons hbc h2' => exact List.Forall₂.cons (hc hab hbc) (ih h2')

lemma forall₂_keepEq_of_flowView {cs cs' : List Candidate} (h : flowView cs = flowView cs') :
    List.Forall₂ (fun c d => c.keep_rate = d.keep_rate) cs cs' := by
  induction cs generalizing cs' with
  | nil =>
    cases cs' with
    | nil => exact List.Forall₂.nil
    | cons d ds => exact absurd h (by simp [flowView])
  | cons c cs ih =>
    cases cs' with
    | nil => exact absurd h (by simp [flowView])
    | cons d ds =>
      rw [flowView, List.map_cons, flowView, List.map_cons] at h
      injection h with hhead htail
      refine List.Forall₂.cons ?_ (ih htail)
      exact congrArg (fun pr => pr.2.1) hhead

/-!
## The claims
-/

/-- C1, counterexample.  In the worked scenario the terminal-round ledger
gives candidate `A` a vote total of `2`, not `4`, and `A` is not elected:
the single-preference ballots `"B"` and `"C"` exhaust at their eliminated
first choice instead of flowing to `A`. -/
theorem C1_counterexample :
    ¬ ((getCand (run_election scenarioElection) "A").votes = 4
        ∧ (getCand (run_election scenarioElection) "A").is_winner = true) := by
  rw [getCand_run_sc_A]
  norm_num

/-- C1, amended.  For the election with candidates `{A, B, C}`,
`numWinners = 1` and ballots `["AB", "AB", "B", "C"]`, the run computes
quota `3` and eliminates `B` and `C` together in round 1; in the terminal
round `A`'s recomputed vote total equals `2.0` (only the two `"AB"` ballots
reach `A`; the `"B"` and `"C"` ballots exhaust at their eliminated first
choice), which does not exceed the quota, so `A` ends with status
Eliminated. -/
theorem C1_amended_scenario :
    (run_election scenarioElection).droop_quota = 3
    ∧ runSingleRound 3 scB sc0 = scE1
    ∧ runMeekIteration 3 scB scE1 = scM2
    ∧ (getCand (run_election scenarioElection) "A").votes = 2
    ∧ (getCand (run_election scenarioElection) "A").is_winner = false
    ∧ (getCand (run_election scenarioElection) "A").is_loser = true
    ∧ (getCand (run_election scenarioElection) "B").is_loser = true
    ∧ (getCand (run_election scenarioElection) "C").is_loser = true := by
  refine ⟨by rw [run_sc], round1_sc0, meek_scE1, ?_, ?_, ?_, ?_, ?_⟩
  · rw [getCand_run_sc_A]
  · rw [getCand_run_sc_A]
  · rw [getCand_run_sc_A]
  · rw [getCand_run_sc_B]
  · rw [getCand_run_sc_C]

/-- C2.  With at least one valid ballot, the stored quota equals
`floor(N / (W + 1)) + 1` (stated both with natural division and with the
rational floor), and the whole main loop — hence every round's comparison —
is run against that single stored value. -/
theorem C2_quota_invariant (e : Election) (h : e.votes ≠ []) :
    (run_election e).droop_quota = e.votes.length / (e.num_winners + 1) + 1
    ∧ (run_election e).droop_quota
        = ⌊(e.votes.length : ℚ) / ((e.num_winners : ℚ) + 1)⌋₊ + 1
    ∧ (run_election e).candidates
        = runMainLoop ((run_election e).droop_quota) e.num_winners e.votes e.candidates
            (e.candidates.length + 1) := by
  have hni : ¬(e.votes.isEmpty = true) := by
    simpa [List.isEmpty_iff] using h
  refine ⟨?_, ?_, ?_⟩
  · rw [run_election, if_neg hni]
    show calculateDroopQuota e.votes.length e.num_winners = _
    rw [calculateDroopQuota]
  · rw [run_election, if_neg hni]
    show calculateDroopQuota e.votes.length e.num_winners = _
    rw [calculateDroopQuota]
    congr 1
    rw [show ((e.num_winners : ℚ) + 1) = ((e.num_winners + 1 : ℕ) : ℚ) from by push_cast; ring]
    rw [Nat.floor_div_nat, Nat.floor_natCast]
  · rw [run_election, if_neg hni]

/-- C2, witness at the worked scenario: four ballots and one seat give
quota `4 / 2 + 1 = 3`. -/
theorem C2_quota_invariant_witness :
    (run_election scenarioElection).droop_quota
      = scenarioElection.votes.length / (scenarioElection.num_winners + 1) + 1 :=
  (C2_quota_invariant scenarioElection (by decide)).1

/-- C3.  For every ledger (any keep rates, any statuses) with distinct
candidate names — dictionary keys in the source — and every ballot list, one
redistribution pass splits the ballots' total value exactly: the vote totals
plus every ballot's unconsumed remainder sum to the number of valid ballots.
The remainder is unchanged by the pass itself, so it may be read off either
ledger. -/
theorem C3_conservation (cs : List Candidate) (ballots : List (List String))
    (hnodup : (cs.map fun c => c.name).Nodup) :
    voteSum (recalculateVotes cs ballots)
        + (ballots.map fun b => ballotRemainder cs b 1).sum = ballots.length
    ∧ ∀ b v, ballotRemainder (recalculateVotes cs ballots) b v = ballotRemainder cs b v := by
  constructor
  · rw [recalculateVotes]
    have hn0 : ((resetVotes cs).map fun c => c.name).Nodup := by
      rwa [names_eq_of_flowView (flowView_resetVotes cs)]
    rw [voteSum_foldl ballots (resetVotes cs) hn0, voteSum_resetVotes]
    have hrem : (ballots.map fun b => 1 - ballotRemainder (resetVotes cs) b 1)
        = ballots.map fun b => 1 - ballotRemainder cs b 1 :=
      List.map_congr_left fun b _ => by
        rw [ballotRemainder_congr (fun q => effRate_resetVotes cs q) b]
    rw [hrem, sum_one_sub (fun b => ballotRemainder cs b 1) ballots]
    ring
  · intro b v
    exact ballotRemainder_congr (fun q => effRate_recalculateVotes cs ballots q) b v

/-- C3, witness at the worked scenario's initial ledger: `2 + 1 + 1`
retained votes and no exhausted value account for all four ballots. -/
theorem C3_conservation_witness :
    voteSum (recalculateVotes sc0 scB)
        + (scB.map fun b => ballotRemainder sc0 b 1).sum = scB.length :=
  (C3_conservation sc0 scB (by decide)).1

/-- C4.  In the terminal round (at most `numWinners` active candidates) the
main loop runs the final convergence and then the terminal decision, and
that decision elects an active candidate exactly when its recomputed votes
strictly exceed the quota; in particular votes equal to the quota make the
candidate a loser, not a winner. -/
theorem C4_terminal_strictness (quota num_winners : ℕ) (ballots : List (List String))
    (cs : List Candidate) (fuel : ℕ)
    (hterm : (cs.filter fun c => c.isActive).length ≤ num_winners)
    (c : Candidate) (hc : c.isActive = true) :
    runMainLoop quota num_winners ballots cs (fuel + 1)
        = finalDecision quota (runMeekIteration quota ballots cs)
    ∧ ((decideCandidate quota c).is_winner = true ↔ (quota : ℚ) < c.votes)
    ∧ ((decideCandidate quota c).is_loser = true ↔ ¬((quota : ℚ) < c.votes))
    ∧ (c.votes = (quota : ℚ) →
        (decideCandidate quota c).is_loser = true
        ∧ (decideCandidate quota c).is_winner = false) := by
  obtain ⟨hw, hl⟩ := active_flags hc
  refine ⟨?_, ?_, ?_, ?_⟩
  · rw [runMainLoop, if_pos hterm]
  · rw [decideCandidate, if_pos hc]
    by_cases hq : (quota : ℚ) < c.votes
    · rw [if_pos hq]
      simpa using hq
    · rw [if_neg hq]
      simpa [hw] using hq
  · rw [decideCandidate, if_pos hc]
    by_cases hq : (quota : ℚ) < c.votes
    · rw [if_pos hq]
      simpa [hl] using hq
    · rw [if_neg hq]
      simpa using hq
  · intro heq
    rw [decideCandidate, if_pos hc, if_neg (by rw [heq]; exact lt_irrefl _)]
    exact ⟨rfl, hw⟩

/-- C4, witness at the worked scenario's terminal round: one active
candidate (`A`, two votes) against quota `3`; a candidate holding exactly
three votes would be a loser. -/
theorem C4_terminal_strictness_witness :
    runMainLoop 3 1 scB scE1 (0 + 1) = finalDecision 3 (runMeekIteration 3 scB scE1)
    ∧ ((decideCandidate 3 ⟨"A", 3, false, false, 1⟩).is_loser = true
        ∧ (decideCandidate 3 ⟨"A", 3, false, false, 1⟩).is_winner = false) :=
  ⟨(C4_terminal_strictness 3 1 scB scE1 0 (by decide) ⟨"A", 3, false, false, 1⟩ rfl).1,
   (C4_terminal_strictness 3 1 scB scE1 0 (by decide)
      ⟨"A", 3, false, false, 1⟩ rfl).2.2.2 (by norm_num)⟩

/-- C5.  Within a convergence run, one iteration (vote recomputation, which
keeps every keep rate, followed by the shrink step) never raises the keep
rate of any candidate whose keep rate is nonnegative, and the shrink step
multiplies an active over-quota candidate's keep rate by exactly
`quota / votes` — a factor at most `1` — and touches nobody else. -/
theorem C5_keep_rate_monotone (quota : ℕ) (ballots : List (List String))
    (cs : List Candidate) :
    List.Forall₂ (fun c d => 0 ≤ c.keep_rate → d.keep_rate ≤ c.keep_rate) cs
        (meekStep quota ballots cs)
    ∧ ∀ c : Candidate,
        ((shrinkCandidate quota c).keep_rate
          = if c.isActive = true ∧ (quota : ℚ) < c.votes
            then c.keep_rate * ((quota : ℚ) / c.votes) else c.keep_rate)
        ∧ (0 ≤ c.keep_rate → (shrinkCandidate quota c).keep_rate ≤ c.keep_rate) := by
  constructor
  · have h1 : List.Forall₂ (fun c d => c.keep_rate = d.keep_rate) cs
        (recalculateVotes cs ballots) :=
      forall₂_keepEq_of_flowView (flowView_recalculateVotes cs ballots).symm
    have h2 : List.Forall₂ (fun c d => 0 ≤ c.keep_rate → d.keep_rate ≤ c.keep_rate)
        (recalculateVotes cs ballots) (meekStep quota ballots cs) := by
      rw [meekStep, shrinkKeepRates]
      exact List.forall₂_map_right_iff.mpr (List.forall₂_same.mpr fun c _ hnn =>
        shrinkCandidate_le quota c hnn)
    refine forall₂_trans_of ?_ h1 h2
    intro a b c hab hbc hnn
    rw [hab]
    exact hbc (by rw [← hab]; exact hnn)
  · intro c
    exact ⟨shrinkCandidate_keep_rate quota c, shrinkCandidate_le quota c⟩

/-- C5, witness: the scenario's first iteration does not raise any keep
rate, and a candidate with four votes against quota `3` keeps
`1 * (3 / 4) ≤ 1`. -/
theorem C5_keep_rate_monotone_witness :
    List.Forall₂ (fun c d => 0 ≤ c.keep_rate → d.keep_rate ≤ c.keep_rate) sc0
        (meekStep 3 scB sc0)
    ∧ (shrinkCandidate 3 ⟨"A", 4, false, false, 1⟩).keep_rate ≤ 1 :=
  ⟨(C5_keep_rate_monotone 3 scB sc0).1,
   by
    have h := ((C5_keep_rate_monotone 3 scB sc0).2 ⟨"A", 4, false, false, 1⟩).2 (by norm_num)
    simpa using h⟩

/-- C6.  A non-terminal round (more active candidates than seats) runs the
convergence loop and then the elimination step; elimination maps every
candidate through the tie test against the active minimum — every active
candidate within the threshold of the minimum becomes a loser, every other
candidate is returned unchanged. -/
theorem C6_simultaneous_elimination (quota num_winners : ℕ) (ballots : List (List String))
    (cs : List Candidate) (fuel : ℕ)
    (hnt : num_winners < (cs.filter fun c => c.isActive).length) :
    runMainLoop quota num_winners ballots cs (fuel + 1)
        = runMainLoop quota num_winners ballots
            (eliminateLoser (runMeekIteration quota ballots cs)) fuel
    ∧ (∀ cs' : List Candidate, (cs'.filter fun c => c.isActive) ≠ [] →
        ∀ (i : ℕ) (ha : i < cs'.length) (hb : i < (eliminateLoser cs').length),
          (eliminateLoser cs').get ⟨i, hb⟩
            = eliminateCandidate (minVotes (cs'.filter fun c => c.isActive))
                (cs'.get ⟨i, ha⟩))
    ∧ (∀ (m : ℚ) (c : Candidate), eliminateCandidate m c
        = if c.isActive = true ∧ |c.votes - m| < CONVERGENCE_THRESHOLD
          then { c with is_loser := true } else c) := by
  refine ⟨?_, ?_, fun m c => rfl⟩
  · rw [runMainLoop, if_neg (not_le.mpr hnt), runSingleRound]
  · intro cs' hne i ha hb
    rw [List.get_eq_getElem, List.get_eq_getElem]
    exact eliminateLoser_getElem cs' hne i ha hb

/-- C6, witness: round 1 of the worked scenario takes the elimination
branch, and on the ledger `A = 2, B = 1, C = 1` the tie test eliminates `B`
(position 1) while leaving `A` (position 0) untouched. -/
theorem C6_simultaneous_elimination_witness :
    runMainLoop 3 1 scB sc0 (0 + 1)
        = runMainLoop 3 1 scB (eliminateLoser (runMeekIteration 3 scB sc0)) 0
    ∧ (eliminateLoser scR1).get ⟨1, by rw [length_eliminateLoser]; decide⟩
        = eliminateCandidate (minVotes (scR1.filter fun c => c.isActive))
            (scR1.get ⟨1, by decide⟩) :=
  ⟨(C6_simultaneous_elimination 3 1 scB sc0 0 (by decide)).1,
   (C6_simultaneous_elimination 3 1 scB sc0 0 (by decide)).2.1 scR1 (by decide) 1
     (by decide) (by rw [length_eliminateLoser]; decide)⟩

/-- C7.  Along the whole main loop, positionally: a candidate whose status
is already non-active keeps both flags untouched, and a candidate whose two
flags are not both set never ends with both set — statuses only move away
from Active, and Elected and Eliminated are mutually exclusive. -/
theorem C7_status_monotone (quota num_winners : ℕ) (ballots : List (List String))
    (cs : List Candidate) (fuel : ℕ) (i : ℕ) (h1 : i < cs.length)
    (h2 : i < (runMainLoop quota num_winners ballots cs fuel).length) :
    ((cs.get ⟨i, h1⟩).isActive = false →
      ((runMainLoop quota num_winners ballots cs fuel).get ⟨i, h2⟩).is_winner
          = (cs.get ⟨i, h1⟩).is_winner
      ∧ ((runMainLoop quota num_winners ballots cs fuel).get ⟨i, h2⟩).is_loser
          = (cs.get ⟨i, h1⟩).is_loser)
    ∧ (¬((cs.get ⟨i, h1⟩).is_winner = true ∧ (cs.get ⟨i, h1⟩).is_loser = true) →
        ¬(((runMainLoop quota num_winners ballots cs fuel).get ⟨i, h2⟩).is_winner = true
          ∧ ((runMainLoop quota num_winners ballots cs fuel).get ⟨i, h2⟩).is_loser
              = true)) := by
  have hf := forall₂_statusStep_runMainLoop quota num_winners ballots fuel cs
  rw [List.forall₂_iff_get] at hf
  exact hf.2 i h1 h2

/-- C7, witness: candidate `B`, already a loser entering the terminal round
of the worked scenario, comes out of the main loop with both flags exactly
as they were. -/
theorem C7_status_monotone_witness :
    ((runMainLoop 3 1 scB scE1 1).get
          ⟨1, by rw [length_runMainLoop]; decide⟩).is_winner
        = (scE1.get ⟨1, by decide⟩).is_winner
    ∧ ((runMainLoop 3 1 scB scE1 1).get
          ⟨1, by rw [length_runMainLoop]; decide⟩).is_loser
        = (scE1.get ⟨1, by decide⟩).is_loser :=
  (C7_status_monotone 3 1 scB scE1 1 1 (by decide)
    (by rw [length_runMainLoop]; decide)).1 (by decide)

/-- C8.  Starting from a ledger with no winners, every state the round loop
produces before the terminal round still has no winners (the convergence
run and the elimination step both leave winner flags unchanged); the last
trace entry is the main loop's result, the only state with winners. -/
theorem C8_no_early_winners (quota num_winners : ℕ) (ballots : List (List String))
    (cs : List Candidate) (fuel : ℕ) (h0 : ∀ c ∈ cs, c.is_winner = false) :
    (∀ s ∈ (runMainLoopTrace quota num_winners ballots cs (fuel + 1)).dropLast,
        ∀ c ∈ s, c.is_winner = false)
    ∧ (runMainLoopTrace quota num_winners ballots cs (fuel + 1)).getLast?
        = some (runMainLoop quota num_winners ballots cs (fuel + 1))
    ∧ winnerFlags (runMeekIteration quota ballots cs) = winnerFlags cs
    ∧ winnerFlags (eliminateLoser cs) = winnerFlags cs :=
  ⟨trace_noWinners quota num_winners ballots (fuel + 1) cs h0,
   runMainLoopTrace_getLast quota num_winners ballots fuel cs,
   winnerFlags_of_statusView (statusView_runMeekIteration quota ballots cs),
   winnerFlags_eliminateLoser cs⟩

/-- C8, witness at the worked scenario: the trace ends in the main loop's
result and the scenario's elimination step creates no winner. -/
theorem C8_no_early_winners_witness :
    (runMainLoopTrace 3 1 scB sc0 (3 + 1)).getLast?
        = some (runMainLoop 3 1 scB sc0 (3 + 1))
    ∧ winnerFlags (eliminateLoser sc0) = winnerFlags sc0 :=
  ⟨(C8_no_early_winners 3 1 scB sc0 3 (by decide)).2.1,
   (C8_no_early_winners 3 1 scB sc0 3 (by decide)).2.2.2⟩

/-- C10.  The round loop terminates: fuel `activeCount + 1` already reaches
the terminal round (extra fuel does not change the result), because every
non-terminal round strictly shrinks the set of active candidates — the
candidate attaining the active minimum always passes the tie test. -/
theorem C10_termination (quota num_winners : ℕ) (ballots : List (List String))
    (cs : List Candidate) (fuel : ℕ)
    (hfuel : (cs.filter fun c => c.isActive).length + 1 ≤ fuel) :
    runMainLoop quota num_winners ballots cs fuel
        = runMainLoop quota num_winners ballots cs
            ((cs.filter fun c => c.isActive).length + 1)
    ∧ ∀ cs' : List Candidate, num_winners < (cs'.filter fun c => c.isActive).length →
        ((runSingleRound quota ballots cs').filter fun c => c.isActive).length
          < (cs'.filter fun c => c.isActive).length :=
  ⟨runMainLoop_fuel_stable quota num_winners ballots _ cs fuel (Nat.le_refl _) hfuel,
   fun cs' h => activeLen_runSingleRound_lt quota num_winners ballots cs' h⟩

/-- C10, witness: with three active candidates any fuel of at least four
gives the same outcome as fuel four, and scenario round 1 strictly shrinks
the active set. -/
theorem C10_termination_witness :
    runMainLoop 3 1 scB sc0 5
        = runMainLoop 3 1 scB sc0 ((sc0.filter fun c => c.isActive).length + 1)
    ∧ ((runSingleRound 3 scB sc0).filter fun c => c.isActive).length
        < (sc0.filter fun c => c.isActive).length :=
  ⟨(C10_termination 3 1 scB sc0 5 (by decide)).1,
   (C10_termination 3 1 scB sc0 5 (by decide)).2 sc0 (by decide)⟩

/-- C9.  With no valid ballots the run aborts before quota computation: the
election state — quota, every candidate's flags and totals — is returned
exactly as it was. -/
theorem C9_empty_abort (e : Election) (h : e.votes = []) : run_election e = e := by
  rw [run_election, if_pos (by rw [h]; rfl)]

/-- C9, witness: an election loaded with no ballots is left untouched. -/
theorem C9_empty_abort_witness :
    run_election (mkElection ["A", "B", "C"] 1 []) = mkElection ["A", "B", "C"] 1 [] :=
  C9_empty_abort (mkElection ["A", "B", "C"] 1 []) rfl

end STV
